import Mathlib

/-
Verification development for `src/tools/rdm/TestRunner.py` (OLA RDM responder
test runner).  The Python module is shallowly embedded below:

* Python dicts become association lists over `Nat` keys (`alookup` / `aset`);
* test classes become `TestDescriptor` records identified by a `Nat` id;
* test instances become `Nat` instance ids handed out by a counter, exactly
  mirroring the order in which `_AddTest` instantiates classes;
* the callback-driven `QueuedMessageFetcher` becomes a recursion over the
  list of responses the device produces, one response per issued GET;
* `set.pop()` (whose order Python leaves arbitrary) becomes an explicit
  `PopChoice` parameter: any function that picks a member of a nonempty
  `Finset`;
* raised exceptions become `Except`/flag results.
-/

namespace TestRunnerModel

/-! ### Association lists: the model of Python dict membership / lookup / assignment -/

/-- Lookup in an association list; models `d[k]` / `k in d` for a Python dict
whose keys are `Nat`. -/
def alookup {α : Type} : List (Nat × α) → Nat → Option α
  | [], _ => none
  | (k, v) :: rest, x => if x = k then some v else alookup rest x

/-- Assignment `d[k] = v` on a Python dict: overwrite the existing entry if the
key is present, otherwise add a new entry. -/
def aset {α : Type} : List (Nat × α) → Nat → α → List (Nat × α)
  | [], x, v => [(x, v)]
  | (k, w) :: rest, x, v =>
    if x = k then (k, v) :: rest else (k, w) :: aset rest x v

/-! ### `DeviceProperties` (TestRunner.py lines 47-67)

A `DeviceProperties` object stores the run's gathered properties in the
dict `self._properties`.  `__setattr__` logs a warning when the property is
already present and then overwrites it; `__getattr__` raises
`AttributeError` when the property is absent.  The store is an association
list from property names to values; the `Bool` returned by `setProp` is the
"Multiple sets of property" warning, and `none` from `getProp` is the
`AttributeError`. -/

/-- Model of `DeviceProperties.__setattr__`: warn (first component `true`) iff
the property is already present, then store the new value. -/
def setProp {α : Type} (d : List (Nat × α)) (p : Nat) (v : α) :
    Bool × List (Nat × α) :=
  ((alookup d p).isSome, aset d p v)

/-- Model of `DeviceProperties.__getattr__`: `none` models the raised
`AttributeError`, `some v` the stored value. -/
def getProp {α : Type} (d : List (Nat × α)) (p : Nat) : Option α :=
  alookup d p

/-! ### Protocol constants

These identifiers live in the external collaborators (`ola.OlaClient`,
`ola.PidStore`); only their distinctness matters to `TestRunner.py`.  The two
PID values are the standard RDM parameter ids. -/

def RDM_ACK : Nat := 0
def RDM_ACK_TIMER : Nat := 1
def RDM_NACK_REASON : Nat := 2
def RDM_COMPLETED_OK : Nat := 0
def NR_UNKNOWN_PID : Nat := 0
def RDM_GET : Nat := 1
def QUEUED_MESSAGE_PID : Nat := 32
def STATUS_MESSAGES_PID : Nat := 48

/-- The response fields `QueuedMessageFetcher._HandleResponse` consumes.
`messagesEmpty` models `unpacked_data.get('messages', []) == []`. -/
structure Response where
  succeeded : Bool
  response_code : Nat
  response_type : Nat
  ack_timer : Nat
  nack_reason : Nat
  command_class : Nat
  pid : Nat
  queued_messages : Nat
  messagesEmpty : Bool
deriving DecidableEq

/-- Terminal condition of one drain cycle.  `drained` covers every
`StopIfNoEvents` path (transport error, bad response code, NACK
`NR_UNKNOWN_PID`, empty status message); `loopLimit` is the `wrapper.Stop()`
path taken when the fetch counter reaches the limit; `pending` is the
modelling artifact of the response list running out while a GET is
outstanding. -/
inductive DrainOutcome
  | drained
  | loopLimit
  | pending
deriving DecidableEq

/-- Observable effects of one drain cycle: how many GET QUEUED_MESSAGE
requests were issued, how many ACK-timer callbacks were scheduled via
`AddEvent`, how the cycle ended, and whether the "empty status message but
queued message count is nonzero" anomaly was logged. -/
structure DrainResult where
  fetches : Nat
  timers : Nat
  outcome : DrainOutcome
  anomaly : Bool
deriving DecidableEq

/-- One invocation of `QueuedMessageFetcher._FetchQueuedMessage` with the
current counter value, together with the `_HandleResponse` callback chain it
triggers; `rs` is the stream of responses the device returns, one per issued
GET.  The branch order mirrors lines 108-162 of `TestRunner.py` exactly. -/
def fetchLoop (limit : Nat) : Nat → List Response → DrainResult
  | counter, rs =>
    if counter = limit then
      -- loop limit reached: log error, `self._wrapper.Stop()`, no fetch issued
      ⟨0, 0, .loopLimit, false⟩
    else
      match rs with
      | [] => ⟨1, 0, .pending, false⟩
      | r :: rest =>
        if r.succeeded = false then
          -- transport error: log, `StopIfNoEvents`
          ⟨1, 0, .drained, false⟩
        else if r.response_code ≠ RDM_COMPLETED_OK then
          -- non-OK response code: log, `StopIfNoEvents`
          ⟨1, 0, .drained, false⟩
        else if r.response_type = RDM_ACK_TIMER then
          -- schedule `_FetchQueuedMessage` again after `ack_timer` ms
          let sub := fetchLoop limit (counter + 1) rest
          ⟨1 + sub.fetches, 1 + sub.timers, sub.outcome, sub.anomaly⟩
        else if r.response_type = RDM_NACK_REASON ∧ r.nack_reason = NR_UNKNOWN_PID ∧
            r.command_class = RDM_GET ∧ r.pid = QUEUED_MESSAGE_PID then
          ⟨1, 0, .drained, false⟩
        else if r.response_type = RDM_ACK ∧ r.command_class = RDM_GET ∧
            r.pid = STATUS_MESSAGES_PID ∧ r.messagesEmpty = true then
          ⟨1, 0, .drained, r.queued_messages ≠ 0⟩
        else
          -- more remain, keep fetching them
          let sub := fetchLoop limit (counter + 1) rest
          ⟨1 + sub.fetches, sub.timers, sub.outcome, sub.anomaly⟩

/-- `QueuedMessageFetcher.FetchAllMessages`: reset the counter to zero and
start the fetch/response cycle. -/
def FetchAllMessages (limit : Nat) (rs : List Response) : DrainResult :=
  fetchLoop limit 0 rs

/-! ### Test classes and registration (TestRunner.py lines 193-207)

A test class carries `PROVIDES`, the species of the `Requires()` result
(assumed static per class), and `DEPS`.  Classes are identified by a `Nat`
id, standing in for Python object identity. -/

/-- Static metadata of one test class.  `REQUIRES` is the list returned by
`Requires()`, `DEPS` the list of ids of the classes in `DEPS`. -/
structure TestDescriptor where
  id : Nat
  PROVIDES : List Nat
  REQUIRES : List Nat
  DEPS : List Nat
deriving DecidableEq

/-- The exceptions `TestRunner.py` can raise, plus three modelling artifacts
that are unreachable in the scenarios proved below: `outOfFuel` (the Lean
recursion fuel, absent from Python), `unknownDescriptor` (a `DEPS` id with no
descriptor; Python holds the class itself), and `inProgressMemo` (Python
would return the `None` placeholder at line 280, which no caller can reach
because every in-progress class is on the `parents` path checked first). -/
inductive Err
  | duplicateProperty
  | missingProperty
  | circularDependency
  | outOfFuel
  | unknownDescriptor
  | inProgressMemo
deriving DecidableEq

/-- The registration state of a `TestRunner`: `self._property_map` (property
name to producing class id) and `self._all_tests` (class ids in registration
order). -/
structure RunnerState where
  property_map : List (Nat × Nat)
  all_tests : List Nat
deriving DecidableEq

/-- The `for property in test_class.PROVIDES` loop of `RegisterTest`: claim
each property in turn, stopping at the first one already claimed.  The map
mutations made before the failure survive it, exactly as in Python where the
exception propagates out of a half-run loop. -/
def claimProvides (d : Nat) : List Nat → List (Nat × Nat) →
    Option Err × List (Nat × Nat)
  | [], pmap => (none, pmap)
  | p :: rest, pmap =>
    if (alookup pmap p).isSome then (some .duplicateProperty, pmap)
    else claimProvides d rest (pmap ++ [(p, d)])

/-- `TestRunner.RegisterTest`: claim every provided property, then append the
class to `self._all_tests`.  On `DuplicatePropertyException` the class is not
appended but the partially updated property map is kept. -/
def RegisterTest (st : RunnerState) (tc : TestDescriptor) :
    Option Err × RunnerState :=
  match claimProvides tc.id tc.PROVIDES st.property_map with
  | (some e, pmap) => (some e, { st with property_map := pmap })
  | (none, pmap) =>
    (none, { property_map := pmap, all_tests := st.all_tests ++ [tc.id] })

/-- Register a list of classes in order, propagating the first failure. -/
def registerAll : List TestDescriptor → RunnerState → Except Err RunnerState
  | [], st => .ok st
  | tc :: rest, st =>
    match RegisterTest st tc with
    | (some e, _) => .error e
    | (none, st') => registerAll rest st'

/-! ### Dependency resolution (TestRunner.py lines 247-314)

`_AddTest` recursively instantiates classes.  `memo` is
`class_name_to_object` (`none` value = the in-progress `None` placeholder),
`nextInst` the source of fresh instance identities, `instOf` the record of
which class every created instance belongs to, and `depsMap` the `deps_map`
dict in insertion order. -/

/-- Mutable state threaded through `_InstantiateTests` / `_AddTest`. -/
structure ResolveState where
  memo : List (Nat × Option Nat)
  nextInst : Nat
  instOf : List (Nat × Nat)
  depsMap : List (Nat × Finset Nat)
deriving DecidableEq

/-- The empty state `_InstantiateTests` starts from. -/
def initResolveState : ResolveState := ⟨[], 0, [], []⟩

/-- The `for property in test_obj.Requires()` loop of `_AddTest`: map each
required property to its producing class id via `self._property_map`, raising
`MissingPropertyException` for an unclaimed property. -/
def producersOf (pmap : List (Nat × Nat)) : List Nat → Except Err (List Nat)
  | [] => .ok []
  | p :: rest =>
    match alookup pmap p with
    | none => .error .missingProperty
    | some d =>
      match producersOf pmap rest with
      | .error e => .error e
      | .ok ds => .ok (d :: ds)

/-- The `for dep_class in dep_classes` loop of `_AddTest`: reject a class on
the ancestor path (`CircularDepdendancyException`), otherwise recurse via
`step` (the recursive `_AddTest` call) and collect the dependency objects. -/
def resolveDeps (step : ResolveState → Nat → Except Err (Nat × ResolveState))
    (newParents : List Nat) :
    ResolveState → List Nat → Except Err (List Nat × ResolveState)
  | st, [] => .ok ([], st)
  | st, dc :: rest =>
    if dc ∈ newParents then .error .circularDependency
    else
      match step st dc with
      | .error e => .error e
      | .ok (obj, st') =>
        match resolveDeps step newParents st' rest with
        | .error e => .error e
        | .ok (objs, st'') => .ok (obj :: objs, st'')

/-- `TestRunner._AddTest`.  Mirrors lines 263-314: memo lookup, in-progress
marking, instantiation, `Requires()` to producer classes, `DEPS` extension,
per-dependency cycle check and recursion, then memo update and `deps_map`
insertion.  `fuel` only bounds the recursion depth; `reg.length + 2` is
always enough because the ancestor path has distinct registered ids. -/
def addTest (reg : List TestDescriptor) (pmap : List (Nat × Nat)) :
    Nat → ResolveState → List Nat → Nat → Except Err (Nat × ResolveState)
  | 0, _, _, _ => .error .outOfFuel
  | fuel + 1, st, parents, d =>
    match alookup st.memo d with
    | some (some inst) => .ok (inst, st)
    | some none => .error .inProgressMemo
    | none =>
      -- class_name_to_object[test_class] = None, then instantiate
      let inst := st.nextInst
      let st₁ : ResolveState :=
        { st with
            memo := st.memo ++ [(d, none)]
            nextInst := inst + 1
            instOf := st.instOf ++ [(inst, d)] }
      match (reg.find? fun tc => tc.id = d) with
      | none => .error .unknownDescriptor
      | some tc =>
        let newParents := parents ++ [d]
        match producersOf pmap tc.REQUIRES with
        | .error e => .error e
        | .ok producers =>
          let depClasses := producers ++ tc.DEPS
          match resolveDeps (fun st' dc => addTest reg pmap fuel st' newParents dc)
              newParents st₁ depClasses with
          | .error e => .error e
          | .ok (depObjs, st₂) =>
            .ok (inst,
              { st₂ with
                  memo := aset st₂.memo d (some inst)
                  depsMap := st₂.depsMap ++ [(inst, depObjs.toFinset)] })

/-- The `for test_class in tests_to_run` loop of `_InstantiateTests`. -/
def instantiateLoop (reg : List TestDescriptor) (pmap : List (Nat × Nat))
    (fuel : Nat) : ResolveState → List Nat → Except Err ResolveState
  | st, [] => .ok st
  | st, d :: rest =>
    match addTest reg pmap fuel st [] d with
    | .error e => .error e
    | .ok (_, st') => instantiateLoop reg pmap fuel st' rest

/-- `TestRunner._InstantiateTests`: resolve every selected class starting
from the empty state and return the final resolution state (whose `depsMap`
is the returned `deps_map`). -/
def instantiateTests (reg : List TestDescriptor) (pmap : List (Nat × Nat))
    (testsToRun : List Nat) : Except Err ResolveState :=
  instantiateLoop reg pmap (reg.length + 2) initResolveState testsToRun

/-! ### Topological sort (TestRunner.py lines 316-343)

The graph is `deps_dict` in insertion order: a list of
(instance, dependency set) pairs.  `no_deps` is a Python `set`, and
`no_deps.pop()` removes an arbitrary member; the embedding makes that
arbitrariness explicit as a `PopChoice` — any function that returns a member
of a nonempty `Finset`.  Everything else (the `remaining_tests` list, the
`discard` sweep, the `remove_list` compaction) is kept in Python's order. -/

/-- A dependency graph as handed to `_TopologicalSort`: `deps_dict` entries in
insertion order. -/
abbrev DepGraph := List (Nat × Finset Nat)

/-- The keys of a graph. -/
def keysOf (g : DepGraph) : Finset Nat := (g.map Prod.fst).toFinset

/-- The dependency set a graph associates to an instance. -/
def origOf (g : DepGraph) (t : Nat) : Finset Nat := (alookup g t).getD ∅

/-- One way of popping arbitrary members from nonempty finsets, standing for
the unspecified order of Python's `set.pop()`. -/
structure PopChoice where
  choose : (s : Finset Nat) → s.Nonempty → Nat
  choose_mem : ∀ s h, choose s h ∈ s

/-- The `while len(no_deps) > 0` loop.  Each round pops one instance from
`no_deps`, appends it to the output, discards it from every remaining
dependency set and moves the instances whose sets emptied over to `no_deps`.
`fuel` only bounds the iteration count; `noDeps.card + remaining.length` is
always enough because each round consumes at least one unit of it. -/
def topoLoop (ch : PopChoice) :
    Nat → List Nat → List (Nat × Finset Nat) → Finset Nat → List Nat
  | 0, tests, _, _ => tests
  | fuel + 1, tests, remaining, noDeps =>
    if h : noDeps.Nonempty then
      let c := ch.choose noDeps h
      let rem2 := remaining.map fun p => (p.1, p.2.erase c)
      let moved := rem2.filter fun p => p.2 = ∅
      let remaining' := rem2.filter fun p => ¬p.2 = ∅
      topoLoop ch fuel (tests ++ [c]) remaining'
        (noDeps.erase c ∪ (moved.map Prod.fst).toFinset)
    else tests

/-- `TestRunner._TopologicalSort`: seed `no_deps` with the instances whose
dependency sets are empty, keep the rest in `remaining_tests`, and run the
loop.  Note the function is total: when `no_deps` empties with instances
still remaining, the partial output is returned as is. -/
def TopologicalSort (ch : PopChoice) (g : DepGraph) : List Nat :=
  let remaining := g.filter fun p => ¬p.2 = ∅
  let noDeps := ((g.filter fun p => p.2 = ∅).map Prod.fst).toFinset
  topoLoop ch (noDeps.card + remaining.length) [] remaining noDeps

/-- Pop the smallest member: one admissible `set.pop()` order. -/
def chooseMin : PopChoice :=
  ⟨fun s h => s.min' h, fun s h => s.min'_mem h⟩

/-- Pop the largest member: another admissible `set.pop()` order. -/
def chooseMax : PopChoice :=
  ⟨fun s h => s.max' h, fun s h => s.max'_mem h⟩

/-! ### The driving loop of `RunTests` (TestRunner.py lines 209-245) -/

/-- What one `RunTests` call did: the scheduled order, the instances whose
bodies ran, the instances skipped for a missing required property, the drain
cycle results in order, and the final `DeviceProperties` store. -/
structure RunOutcome where
  order : List Nat
  executed : List Nat
  skipped : List Nat
  drains : List DrainResult
  device : List (Nat × Nat)
deriving DecidableEq

/-- Modelled from the spec: test bodies are external collaborators (spec
paragraphs 1 and 6), and per the spec's end-to-end property an executed test makes the
properties it provides present in the store.  `Run()` is therefore modelled
as writing every provided property, keyed by the producing instance. -/
def runBody (tc : TestDescriptor) (inst : Nat) (dev : List (Nat × Nat)) :
    List (Nat × Nat) :=
  tc.PROVIDES.foldl (fun d p => aset d p inst) dev

/-- The descriptor of an instance, through `instOf` and the registry. -/
def descrOf (reg : List TestDescriptor) (instOf : List (Nat × Nat))
    (inst : Nat) : Option TestDescriptor :=
  match alookup instOf inst with
  | none => none
  | some d => reg.find? fun tc => tc.id = d

/-- The `for test in tests` loop of `RunTests`: drain the queue (one response
stream per cycle), check every required property against the store, then
either skip or run the body.  Note that nothing inspects the drain outcome:
the loop proceeds to the requires-check and the next test even when the
drain cycle ended in `loopLimit` — exactly as in the Python source, where
`_FetchQueuedMessage` only calls `self._wrapper.Stop()`. -/
def runLoop (reg : List TestDescriptor) (instOf : List (Nat × Nat))
    (limit : Nat) :
    List Nat → List (List Response) → List (Nat × Nat) → RunOutcome →
    RunOutcome
  | [], _, dev, acc => { acc with device := dev }
  | inst :: rest, streams, dev, acc =>
    let dr := FetchAllMessages limit (streams.headD [])
    let acc := { acc with drains := acc.drains ++ [dr] }
    let requires := match descrOf reg instOf inst with
      | some tc => tc.REQUIRES
      | none => []  -- artifact: every scheduled instance has a descriptor
    if requires.all fun p => (getProp dev p).isSome then
      let dev' := match descrOf reg instOf inst with
        | some tc => runBody tc inst dev
        | none => dev
      runLoop reg instOf limit rest streams.tail dev'
        { acc with executed := acc.executed ++ [inst] }
    else
      runLoop reg instOf limit rest streams.tail dev
        { acc with skipped := acc.skipped ++ [inst] }

/-- `TestRunner.RunTests`: select the classes to run, resolve them (a setup
exception propagates here, before any drain or body), topologically sort,
then drive the loop.  `streams` holds the device's responses for the
successive drain cycles, `limit` the fetcher's loop limit (25 in Python). -/
def RunTests (reg : List TestDescriptor) (rst : RunnerState)
    (filt : Option (List Nat)) (ch : PopChoice) (limit : Nat)
    (streams : List (List Response)) : Except Err RunOutcome :=
  let testsToRun := match filt with
    | none => rst.all_tests
    | some f => rst.all_tests.filter fun d => d ∈ f
  match instantiateTests reg rst.property_map testsToRun with
  | .error e => .error e
  | .ok st =>
    let order := TopologicalSort ch st.depsMap
    .ok (runLoop reg st.instOf limit order streams []
      { order := order, executed := [], skipped := [], drains := [],
        device := [] })

/-! ## Concrete responses used by witnesses and counterexamples -/

/-- A successful ACK carrying status messages: the "more remain" case. -/
def moreRemainResp : Response := ⟨true, 0, RDM_ACK, 0, 9, RDM_GET, STATUS_MESSAGES_PID, 1, false⟩

/-- A flow-control ACK_TIMER response asking for a 50 ms delay. -/
def timerResp : Response := ⟨true, 0, RDM_ACK_TIMER, 50, 9, RDM_GET, STATUS_MESSAGES_PID, 1, false⟩

/-- An ACK to STATUS_MESSAGES whose message list is empty: the queue is
drained. -/
def emptyStatusResp : Response := ⟨true, 0, RDM_ACK, 0, 9, RDM_GET, STATUS_MESSAGES_PID, 0, true⟩

/-! ## Classification predicates for drain responses -/

/-- A response on which `_HandleResponse` keeps the cycle going (either the
ACK_TIMER branch or the final "more remain" fall-through): it succeeded, has
an OK response code, and matches neither terminal pattern. -/
def ContinuesFetch (r : Response) : Prop :=
  r.succeeded = true ∧ r.response_code = RDM_COMPLETED_OK ∧
  ¬(r.response_type = RDM_NACK_REASON ∧ r.nack_reason = NR_UNKNOWN_PID ∧
    r.command_class = RDM_GET ∧ r.pid = QUEUED_MESSAGE_PID) ∧
  ¬(r.response_type = RDM_ACK ∧ r.command_class = RDM_GET ∧
    r.pid = STATUS_MESSAGES_PID ∧ r.messagesEmpty = true)

instance (r : Response) : Decidable (ContinuesFetch r) := by
  unfold ContinuesFetch; infer_instance

/-- A successful "more messages remain" response: continues the cycle and is
not a flow-control timer. -/
def MoreRemain (r : Response) : Prop :=
  ContinuesFetch r ∧ ¬r.response_type = RDM_ACK_TIMER

instance (r : Response) : Decidable (MoreRemain r) := by
  unfold MoreRemain; infer_instance

/-- A successful flow-control timer response. -/
def IsTimerResp (r : Response) : Prop :=
  r.succeeded = true ∧ r.response_code = RDM_COMPLETED_OK ∧
  r.response_type = RDM_ACK_TIMER

instance (r : Response) : Decidable (IsTimerResp r) := by
  unfold IsTimerResp; infer_instance

/-! ## The loop invariant of `_TopologicalSort`

`orig` is the dependency set each instance entered the loop with, `keys`
the key set of `deps_dict`.  The invariant ties the three containers of the
loop — the output list `tests`, the `remaining_tests` list (carried here
with its current dependency sets) and the ready set `no_deps` — to `orig`:
remaining sets are the original ones minus the already-output instances,
ready instances have all their dependencies in the output, the output lists
every instance after its dependencies, and the three containers partition
`keys`. -/
structure TopoInv (orig : Nat → Finset Nat) (keys : Finset Nat)
    (tests : List Nat) (remaining : List (Nat × Finset Nat))
    (noDeps : Finset Nat) : Prop where
  remEq : ∀ p ∈ remaining, p.2 = orig p.1 \ tests.toFinset
  remNE : ∀ p ∈ remaining, p.2 ≠ ∅
  ndSub : ∀ t ∈ noDeps, orig t ⊆ tests.toFinset
  ord : ∀ i (hi : i < tests.length), orig tests[i] ⊆ (tests.take i).toFinset
  tnd : tests.Nodup
  rnd : (remaining.map Prod.fst).Nodup
  cover : ∀ t, t ∈ keys ↔ t ∈ tests ∨ t ∈ noDeps ∨ t ∈ remaining.map Prod.fst
  dTN : ∀ t ∈ tests, t ∉ noDeps
  dTR : ∀ t ∈ tests, t ∉ remaining.map Prod.fst
  dNR : ∀ t ∈ noDeps, t ∉ remaining.map Prod.fst

/-! ## Association-list lemmas -/

theorem alookup_append {α : Type} (l₁ l₂ : List (Nat × α)) (x : Nat) :
    alookup (l₁ ++ l₂) x =
      match alookup l₁ x with
      | some v => some v
      | none => alookup l₂ x := by
  induction l₁ with
  | nil => simp [alookup]
  | cons hd tl ih =>
    obtain ⟨k, v⟩ := hd
    by_cases hx : x = k <;> simp [alookup, hx, ih]

theorem alookup_aset_self {α : Type} (l : List (Nat × α)) (x : Nat) (v : α) :
    alookup (aset l x v) x = some v := by
  induction l with
  | nil => simp [aset, alookup]
  | cons hd tl ih =>
    obtain ⟨k, w⟩ := hd
    by_cases hx : x = k <;> simp [aset, alookup, hx, ih]

theorem alookup_aset_ne {α : Type} (l : List (Nat × α)) (x y : Nat) (v : α)
    (h : y ≠ x) : alookup (aset l x v) y = alookup l y := by
  induction l with
  | nil => simp [aset, alookup, h]
  | cons hd tl ih =>
    obtain ⟨k, w⟩ := hd
    by_cases hx : x = k
    · subst hx
      simp [aset, alookup, h]
    · by_cases hy : y = k <;> simp [aset, alookup, hx, hy, ih]

theorem IsTimerResp.continuesFetch {r : Response} (h : IsTimerResp r) :
    ContinuesFetch r := by
  obtain ⟨h₁, h₂, h₃⟩ := h
  refine ⟨h₁, h₂, ?_, ?_⟩
  · simp [h₃, RDM_ACK_TIMER, RDM_NACK_REASON]
  · simp [h₃, RDM_ACK_TIMER, RDM_ACK]

/-! ## Drain automaton lemmas -/

/-- The fetch counter bounds the number of issued fetches: starting from
`counter`, at most `limit - counter` GET requests are ever issued, whatever
the device answers. -/
theorem fetchLoop_fetches_le (limit : Nat) :
    ∀ (rs : List Response) (counter : Nat), counter ≤ limit →
      (fetchLoop limit counter rs).fetches ≤ limit - counter := by
  intro rs
  induction rs with
  | nil =>
    intro counter hc
    by_cases h : counter = limit
    · simp [fetchLoop, h]
    · simp [fetchLoop, h]
      omega
  | cons r rest ih =>
    intro counter hc
    by_cases h : counter = limit
    · simp [fetchLoop, h]
    · have hc1 : counter + 1 ≤ limit := by omega
      have hsub := ih (counter + 1) hc1
      by_cases h1 : r.succeeded = false
      · simp [fetchLoop, h, h1]; omega
      · by_cases h2 : r.response_code ≠ RDM_COMPLETED_OK
        · simp [fetchLoop, h, h1, h2]; omega
        · by_cases h3 : r.response_type = RDM_ACK_TIMER
          · simp only [fetchLoop, if_neg h, if_neg h1, if_neg h2, if_pos h3]
            omega
          · by_cases h4 : r.response_type = RDM_NACK_REASON ∧
                r.nack_reason = NR_UNKNOWN_PID ∧ r.command_class = RDM_GET ∧
                r.pid = QUEUED_MESSAGE_PID
            · simp only [fetchLoop, if_neg h, if_neg h1, if_neg h2, if_neg h3,
                if_pos h4]
              omega
            · by_cases h5 : r.response_type = RDM_ACK ∧
                  r.command_class = RDM_GET ∧ r.pid = STATUS_MESSAGES_PID ∧
                  r.messagesEmpty = true
              · simp only [fetchLoop, if_neg h, if_neg h1, if_neg h2,
                  if_neg h3, if_neg h4, if_pos h5]
                omega
              · simp only [fetchLoop, if_neg h, if_neg h1, if_neg h2,
                  if_neg h3, if_neg h4, if_neg h5]
                omega

/-- On a stream of cycle-continuing responses long enough to feed it, the
automaton runs the counter up to the limit and aborts there: exactly
`limit - counter` further fetches, one scheduled timer per ACK_TIMER among
the consumed responses, outcome `loopLimit`. -/
theorem fetchLoop_continuing (limit : Nat) :
    ∀ (rs : List Response) (counter : Nat), counter ≤ limit →
      limit - counter ≤ rs.length →
      (∀ r ∈ rs, ContinuesFetch r) →
      fetchLoop limit counter rs =
        ⟨limit - counter,
         (rs.take (limit - counter)).countP
           (fun r => r.response_type == RDM_ACK_TIMER),
         .loopLimit, false⟩ := by
  intro rs
  induction rs with
  | nil =>
    intro counter hc hlen _
    have h : counter = limit := by simp at hlen; omega
    simp [fetchLoop, h]
  | cons r rest ih =>
    intro counter hc hlen hall
    by_cases h : counter = limit
    · simp [fetchLoop, h]
    · have hc1 : counter + 1 ≤ limit := by omega
      have hlen1 : limit - (counter + 1) ≤ rest.length := by
        simp at hlen ⊢; omega
      have hall1 : ∀ x ∈ rest, ContinuesFetch x := fun x hx =>
        hall x (List.mem_cons_of_mem r hx)
      have hr := hall r (List.mem_cons_self r rest)
      obtain ⟨hs, hcode, hn4, hn5⟩ := hr
      have hsub := ih (counter + 1) hc1 hlen1 hall1
      have htake : limit - counter = (limit - (counter + 1)) + 1 := by omega
      have hs' : ¬r.succeeded = false := by simp [hs]
      have hcode' : ¬r.response_code ≠ RDM_COMPLETED_OK := by simp [hcode]
      by_cases h3 : r.response_type = RDM_ACK_TIMER
      · simp only [fetchLoop, if_neg h, if_neg hs', if_neg hcode', if_pos h3,
          hsub, htake, List.take_succ_cons, List.countP_cons]
        simp [h3]
        omega
      · simp only [fetchLoop, if_neg h, if_neg hs', if_neg hcode', if_neg h3,
          if_neg hn4, if_neg hn5, hsub, htake, List.take_succ_cons,
          List.countP_cons]
        simp [h3]
        omega

/-- C6: on a response stream answering every fetch with a successful "more
messages remain" response, one drain cycle never issues a fetch beyond the
configured limit, and as soon as the stream can feed `limit` fetches the
cycle issues exactly `limit` of them, schedules no timers, and signals the
loop-limit condition instead of looping on. -/
theorem drain_more_remain_stops_at_limit (limit : Nat) (rs : List Response)
    (hall : ∀ r ∈ rs, MoreRemain r) :
    (FetchAllMessages limit rs).fetches ≤ limit ∧
    (limit ≤ rs.length →
      FetchAllMessages limit rs = ⟨limit, 0, .loopLimit, false⟩) := by
  constructor
  · have := fetchLoop_fetches_le limit rs 0 (Nat.zero_le _)
    simpa [FetchAllMessages] using this
  · intro hlen
    have hcf : ∀ r ∈ rs, ContinuesFetch r := fun r hr => (hall r hr).1
    have h := fetchLoop_continuing limit rs 0 (Nat.zero_le _) (by simpa) hcf
    simp only [Nat.sub_zero] at h
    have hcount : (rs.take limit).countP
        (fun r => r.response_type == RDM_ACK_TIMER) = 0 := by
      rw [List.countP_eq_zero]
      intro r hr
      have : r ∈ rs := List.mem_of_mem_take hr
      have := (hall r this).2
      simpa using this
    rw [hcount] at h
    simpa [FetchAllMessages] using h

/-- C6 witness at the default limit 25: a stream of 25 "more remain"
responses yields exactly 25 fetches and the loop-limit signal. -/
theorem drain_more_remain_stops_at_limit_witness :
    FetchAllMessages 25 (List.replicate 25 moreRemainResp) =
      ⟨25, 0, .loopLimit, false⟩ :=
  (drain_more_remain_stops_at_limit 25 (List.replicate 25 moreRemainResp)
    (by decide)).2 (by decide)

/-- C4 counterexample: a drain cycle consisting of nothing but flow-control
timer responses does trip the loop limit — 25 ACK_TIMERs at the default
limit of 25 end the cycle in the `loopLimit` state, because the re-invoked
`_FetchQueuedMessage` increments the same counter as every other fetch. -/
theorem drain_timer_only_trips_limit_cex :
    (∀ r ∈ List.replicate 25 timerResp, IsTimerResp r) ∧
    (FetchAllMessages 25 (List.replicate 25 timerResp)).outcome =
      .loopLimit := by
  constructor
  · decide
  · decide

/-- C4 as amended: handling ACK_TIMER schedules a delayed re-invocation of
`_FetchQueuedMessage` and does not itself touch the counter, but the
re-invoked fetch step increments it like any fetch, so a drain cycle fed
only timer responses trips the loop limit after exactly `limit` timers:
`limit` fetches, `limit` scheduled timer callbacks, outcome `loopLimit`. -/
theorem drain_timer_only_trips_limit (limit : Nat) (rs : List Response)
    (hall : ∀ r ∈ rs, IsTimerResp r) (hlen : limit ≤ rs.length) :
    FetchAllMessages limit rs = ⟨limit, limit, .loopLimit, false⟩ := by
  have hcf : ∀ r ∈ rs, ContinuesFetch r := fun r hr =>
    (hall r hr).continuesFetch
  have h := fetchLoop_continuing limit rs 0 (Nat.zero_le _) (by simpa) hcf
  simp only [Nat.sub_zero] at h
  have hcount : (rs.take limit).countP
      (fun r => r.response_type == RDM_ACK_TIMER) = limit := by
    have hlen2 : (rs.take limit).length = limit := by
      simp [List.length_take]; omega
    rw [List.countP_eq_length.2, hlen2]
    intro r hr
    have : r ∈ rs := List.mem_of_mem_take hr
    simp [(hall r this).2.2]
  rw [hcount] at h
  simpa [FetchAllMessages] using h

/-- C4 amended witness: three timer responses at limit 3. -/
theorem drain_timer_only_trips_limit_witness :
    FetchAllMessages 3 (List.replicate 3 timerResp) =
      ⟨3, 3, .loopLimit, false⟩ :=
  drain_timer_only_trips_limit 3 (List.replicate 3 timerResp) (by decide)
    (by decide)

/-! ## Association-list facts used by the scheduler and resolver proofs -/

/-- With duplicate-free keys, entries with equal keys are equal. -/
theorem fst_nodup_inj {α : Type} :
    ∀ {l : List (Nat × α)}, (l.map Prod.fst).Nodup →
      ∀ {p q : Nat × α}, p ∈ l → q ∈ l → p.1 = q.1 → p = q := by
  intro l
  induction l with
  | nil => intro _ p q hp; cases hp
  | cons hd tl ih =>
    intro hnd p q hp hq hpq
    simp only [List.map_cons, List.nodup_cons] at hnd
    rcases List.mem_cons.1 hp with hp | hp <;>
      rcases List.mem_cons.1 hq with hq | hq
    · rw [hp, hq]
    · exfalso
      apply hnd.1
      rw [← hp, hpq]
      exact List.mem_map_of_mem Prod.fst hq
    · exfalso
      apply hnd.1
      rw [← hq, ← hpq]
      exact List.mem_map_of_mem Prod.fst hp
    · exact ih hnd.2 hp hq hpq

/-- With duplicate-free keys, lookup of a member's key finds its value. -/
theorem alookup_of_mem {α : Type} :
    ∀ {l : List (Nat × α)}, (l.map Prod.fst).Nodup →
      ∀ {p : Nat × α}, p ∈ l → alookup l p.1 = some p.2 := by
  intro l
  induction l with
  | nil => intro _ p hp; cases hp
  | cons hd tl ih =>
    intro hnd p hp
    simp only [List.map_cons, List.nodup_cons] at hnd
    rcases List.mem_cons.1 hp with hp | hp
    · subst hp; simp [alookup]
    · have hne : p.1 ≠ hd.1 := by
        intro he
        exact hnd.1 (he ▸ List.mem_map_of_mem Prod.fst hp)
      simp [alookup, hne, ih hnd.2 hp]

/-- A successful lookup comes from a member entry. -/
theorem alookup_mem {α : Type} :
    ∀ {l : List (Nat × α)} {x : Nat} {v : α},
      alookup l x = some v → (x, v) ∈ l := by
  intro l
  induction l with
  | nil => intro x v h; cases h
  | cons hd tl ih =>
    intro x v h
    by_cases hx : x = hd.1
    · obtain ⟨k, w⟩ := hd
      simp [alookup, hx] at h
      simp [hx, h]
    · obtain ⟨k, w⟩ := hd
      simp only [alookup, if_neg hx] at h
      exact List.mem_cons_of_mem _ (ih h)

/-- Splitting a list by a decidable predicate preserves total length. -/
theorem length_filter_partition {α : Type} (l : List α) (p : α → Prop)
    [DecidablePred p] :
    (l.filter fun x => p x).length + (l.filter fun x => ¬p x).length =
      l.length := by
  induction l with
  | nil => rfl
  | cons a t ih =>
    by_cases h : p a
    · rw [List.filter_cons_of_pos (by simpa using h),
        List.filter_cons_of_neg (by simpa using h)]
      simp only [List.length_cons]
      omega
    · rw [List.filter_cons_of_neg (by simpa using h),
        List.filter_cons_of_pos (by simpa using h)]
      simp only [List.length_cons]
      omega

theorem topoLoop_zero (ch : PopChoice) (tests : List Nat)
    (remaining : List (Nat × Finset Nat)) (noDeps : Finset Nat) :
    topoLoop ch 0 tests remaining noDeps = tests := rfl

theorem topoLoop_succ_neg (ch : PopChoice) (fuel : Nat) (tests : List Nat)
    (remaining : List (Nat × Finset Nat)) (noDeps : Finset Nat)
    (h : ¬noDeps.Nonempty) :
    topoLoop ch (fuel + 1) tests remaining noDeps = tests := by
  simp only [topoLoop, dif_neg h]

theorem topoLoop_succ_pos (ch : PopChoice) (fuel : Nat) (tests : List Nat)
    (remaining : List (Nat × Finset Nat)) (noDeps : Finset Nat)
    (h : noDeps.Nonempty) :
    topoLoop ch (fuel + 1) tests remaining noDeps =
      topoLoop ch fuel (tests ++ [ch.choose noDeps h])
        ((remaining.map fun p => (p.1, p.2.erase (ch.choose noDeps h))).filter
          fun p => ¬p.2 = ∅)
        (noDeps.erase (ch.choose noDeps h) ∪
          (((remaining.map fun p =>
              (p.1, p.2.erase (ch.choose noDeps h))).filter
            fun p => p.2 = ∅).map Prod.fst).toFinset) := by
  simp only [topoLoop, dif_pos h]

/-- One popping round of the `while` loop preserves the invariant and
strictly decreases `noDeps.card + remaining.length`.  The primed state
components are given by defining equations so the lemma applies directly to
the unfolded loop body. -/
theorem topoStep_inv (orig : Nat → Finset Nat) (keys : Finset Nat)
    (tests : List Nat) (remaining rem2 moved rem' : List (Nat × Finset Nat))
    (noDeps noDeps' : Finset Nat) (c : Nat)
    (hrem2 : rem2 = remaining.map fun p => (p.1, p.2.erase c))
    (hmoved : moved = rem2.filter fun p => p.2 = ∅)
    (hremp : rem' = rem2.filter fun p => ¬p.2 = ∅)
    (hnd' : noDeps' = noDeps.erase c ∪ (moved.map Prod.fst).toFinset)
    (hc : c ∈ noDeps) (inv : TopoInv orig keys tests remaining noDeps) :
    TopoInv orig keys (tests ++ [c]) rem' noDeps' ∧
      noDeps'.card + rem'.length + 1 ≤ noDeps.card + remaining.length := by
  have hcT : c ∉ tests := fun hmem => (inv.dTN c hmem) hc
  have hcR : c ∉ remaining.map Prod.fst := inv.dNR c hc
  have hmapfst : rem2.map Prod.fst = remaining.map Prod.fst := by
    rw [hrem2, List.map_map]; rfl
  have hrem2nd : (rem2.map Prod.fst).Nodup := by rw [hmapfst]; exact inv.rnd
  have hmovedsub : ∀ x ∈ moved.map Prod.fst, x ∈ remaining.map Prod.fst := by
    intro x hx
    obtain ⟨q, hq, rfl⟩ := List.mem_map.1 hx
    rw [← hmapfst]
    rw [hmoved] at hq
    exact List.mem_map_of_mem Prod.fst (List.mem_of_mem_filter hq)
  have hremsub : ∀ x ∈ rem'.map Prod.fst, x ∈ remaining.map Prod.fst := by
    intro x hx
    obtain ⟨q, hq, rfl⟩ := List.mem_map.1 hx
    rw [← hmapfst]
    rw [hremp] at hq
    exact List.mem_map_of_mem Prod.fst (List.mem_of_mem_filter hq)
  have hsplit : ∀ x, x ∈ remaining.map Prod.fst ↔
      x ∈ moved.map Prod.fst ∨ x ∈ rem'.map Prod.fst := by
    intro x
    constructor
    · intro hx
      rw [← hmapfst] at hx
      obtain ⟨q, hq, rfl⟩ := List.mem_map.1 hx
      by_cases hqe : q.2 = ∅
      · refine Or.inl (List.mem_map_of_mem Prod.fst ?_)
        rw [hmoved]
        exact List.mem_filter.2 ⟨hq, by simpa using hqe⟩
      · refine Or.inr (List.mem_map_of_mem Prod.fst ?_)
        rw [hremp]
        exact List.mem_filter.2 ⟨hq, by simpa using hqe⟩
    · intro hx
      rcases hx with hx | hx
      · exact hmovedsub x hx
      · exact hremsub x hx
  have hdisj : ∀ x, x ∈ moved.map Prod.fst → x ∈ rem'.map Prod.fst → False := by
    intro x hx₁ hx₂
    obtain ⟨q₁, hq₁, hxq₁⟩ := List.mem_map.1 hx₁
    obtain ⟨q₂, hq₂, hxq₂⟩ := List.mem_map.1 hx₂
    rw [hmoved] at hq₁
    rw [hremp] at hq₂
    have hq₁m := List.mem_filter.1 hq₁
    have hq₂m := List.mem_filter.1 hq₂
    have he : q₁ = q₂ := fst_nodup_inj hrem2nd hq₁m.1 hq₂m.1
      (by rw [hxq₁, hxq₂])
    have h₁ : q₁.2 = ∅ := by simpa using hq₁m.2
    have h₂ : ¬q₂.2 = ∅ := by simpa using hq₂m.2
    exact h₂ (he ▸ h₁)
  have htoF : (tests ++ [c]).toFinset = insert c tests.toFinset := by
    ext x
    simp only [List.toFinset_append, Finset.mem_union, List.mem_toFinset,
      List.toFinset_cons, List.toFinset_nil, insert_emptyc_eq,
      Finset.mem_insert, Finset.mem_singleton]
    tauto
  constructor
  · refine ⟨?_, ?_, ?_, ?_, ?_, ?_, ?_, ?_, ?_, ?_⟩
    · -- remEq
      intro q hq
      rw [hremp] at hq
      have hqf := List.mem_filter.1 hq
      rw [hrem2] at hqf
      obtain ⟨p, hp, hqp⟩ := List.mem_map.1 hqf.1
      have hEq := inv.remEq p hp
      rw [← hqp]
      show p.2.erase c = orig p.1 \ (tests ++ [c]).toFinset
      rw [hEq, htoF]
      ext d
      simp only [Finset.mem_erase, Finset.mem_sdiff, Finset.mem_insert,
        List.mem_toFinset]
      tauto
    · -- remNE
      intro q hq
      rw [hremp] at hq
      have := (List.mem_filter.1 hq).2
      simpa using this
    · -- ndSub
      intro t ht
      rw [hnd'] at ht
      rcases Finset.mem_union.1 ht with ht | ht
      · intro d hd
        have := inv.ndSub t (Finset.mem_of_mem_erase ht) hd
        rw [htoF]
        exact Finset.mem_insert_of_mem this
      · obtain ⟨q, hq, hqt⟩ := List.mem_map.1 (List.mem_toFinset.1 ht)
        rw [hmoved] at hq
        have hqf := List.mem_filter.1 hq
        have hqe : q.2 = ∅ := by simpa using hqf.2
        have hq2 := hqf.1
        rw [hrem2] at hq2
        obtain ⟨p, hp, hqp⟩ := List.mem_map.1 hq2
        have hEq := inv.remEq p hp
        have hpt : p.1 = t := by rw [← hqp] at hqt; exact hqt
        subst hpt
        intro d hd
        rw [htoF]
        by_cases hdT : d ∈ tests.toFinset
        · exact Finset.mem_insert_of_mem hdT
        · have hdp : d ∈ p.2 := by
            rw [hEq]; exact Finset.mem_sdiff.2 ⟨hd, hdT⟩
          have hdc : d = c := by
            by_contra hne
            have hmem : d ∈ p.2.erase c := Finset.mem_erase.2 ⟨hne, hdp⟩
            have hzero : p.2.erase c = ∅ := by rw [← hqp] at hqe; exact hqe
            rw [hzero] at hmem
            exact absurd hmem (Finset.not_mem_empty d)
          rw [hdc]
          exact Finset.mem_insert_self c _
    · -- ord
      intro i hi
      rw [List.length_append, List.length_singleton] at hi
      by_cases hlt : i < tests.length
      · have htake : (tests ++ [c]).take i = tests.take i :=
          List.take_append_of_le_length (Nat.le_of_lt hlt)
        rw [htake, List.getElem_append_left hlt]
        exact inv.ord i hlt
      · have hieq : i = tests.length := by omega
        subst hieq
        have htake : (tests ++ [c]).take tests.length = tests := by
          rw [List.take_append_of_le_length (Nat.le_refl _), List.take_length]
        rw [htake, List.getElem_append_right (Nat.le_refl _)]
        simp only [Nat.sub_self, List.getElem_cons_zero]
        exact inv.ndSub c hc
    · -- tnd
      simp [List.nodup_append, inv.tnd, hcT]
    · -- rnd
      have hsub : List.Sublist (rem'.map Prod.fst) (rem2.map Prod.fst) := by
        rw [hremp]
        exact (List.filter_sublist _).map _
      exact hrem2nd.sublist hsub
    · -- cover
      intro t
      have h₁ := inv.cover t
      have h₂ := hsplit t
      have h₃ : t ∈ noDeps ↔ t = c ∨ t ∈ noDeps.erase c := by
        by_cases htc : t = c
        · subst htc; simp [hc]
        · simp [Finset.mem_erase, htc]
      rw [hnd']
      simp only [List.mem_append, List.mem_singleton, Finset.mem_union,
        List.mem_toFinset] at h₁ h₂ h₃ ⊢
      tauto
    · -- dTN
      intro t ht
      rw [hnd']
      rcases List.mem_append.1 ht with ht | ht
      · intro hmem
        rcases Finset.mem_union.1 hmem with hm | hm
        · exact (inv.dTN t ht) (Finset.mem_of_mem_erase hm)
        · exact (inv.dTR t ht) (hmovedsub t (List.mem_toFinset.1 hm))
      · have htc : t = c := List.mem_singleton.1 ht
        subst htc
        intro hmem
        rcases Finset.mem_union.1 hmem with hm | hm
        · exact absurd rfl (Finset.mem_erase.1 hm).1
        · exact hcR (hmovedsub t (List.mem_toFinset.1 hm))
    · -- dTR
      intro t ht
      rcases List.mem_append.1 ht with ht | ht
      · intro hmem
        exact (inv.dTR t ht) (hremsub t hmem)
      · have htc : t = c := List.mem_singleton.1 ht
        subst htc
        intro hmem
        exact hcR (hremsub t hmem)
    · -- dNR
      intro t ht
      rw [hnd'] at ht
      rcases Finset.mem_union.1 ht with ht | ht
      · intro hmem
        exact (inv.dNR t (Finset.mem_of_mem_erase ht)) (hremsub t hmem)
      · intro hmem
        exact hdisj t (List.mem_toFinset.1 ht) hmem
  · -- the measure decreases
    have h₁ : (noDeps.erase c).card = noDeps.card - 1 :=
      Finset.card_erase_of_mem hc
    have h₂ : noDeps'.card ≤ (noDeps.erase c).card +
        (moved.map Prod.fst).toFinset.card := by
      rw [hnd']
      exact Finset.card_union_le _ _
    have h₃ : (moved.map Prod.fst).toFinset.card ≤ moved.length := by
      calc (moved.map Prod.fst).toFinset.card
          ≤ (moved.map Prod.fst).length := List.toFinset_card_le _
        _ = moved.length := List.length_map _ _
    have h₄ : moved.length + rem'.length = remaining.length := by
      have hpart := length_filter_partition rem2 (fun p => p.2 = ∅)
      rw [← hmoved, ← hremp] at hpart
      have hlen : rem2.length = remaining.length := by
        rw [hrem2]
        exact List.length_map _ _
      omega
    have h₅ : 0 < noDeps.card := Finset.card_pos.2 ⟨c, hc⟩
    omega

/-- Main loop lemma for `_TopologicalSort`: from any state satisfying the
invariant, with fuel at least `noDeps.card + remaining.length`, the loop
returns a duplicate-free enumeration of `keys` in which every instance
follows all of its dependencies.  `hclosed` says every dependency is a key,
`rk` is a topological ranking witnessing acyclicity. -/
theorem topoLoop_inv (ch : PopChoice) (orig : Nat → Finset Nat)
    (keys : Finset Nat) (hclosed : ∀ t ∈ keys, orig t ⊆ keys)
    (rk : Nat → Nat) (hrk : ∀ t ∈ keys, ∀ d ∈ orig t, rk d < rk t) :
    ∀ (fuel : Nat) (tests : List Nat) (remaining : List (Nat × Finset Nat))
      (noDeps : Finset Nat),
      noDeps.card + remaining.length ≤ fuel →
      TopoInv orig keys tests remaining noDeps →
      (topoLoop ch fuel tests remaining noDeps).Nodup ∧
      (∀ t, t ∈ topoLoop ch fuel tests remaining noDeps ↔ t ∈ keys) ∧
      (∀ i (hi : i < (topoLoop ch fuel tests remaining noDeps).length),
        orig (topoLoop ch fuel tests remaining noDeps)[i] ⊆
          ((topoLoop ch fuel tests remaining noDeps).take i).toFinset) := by
  intro fuel
  induction fuel with
  | zero =>
    intro tests remaining noDeps hfuel inv
    have hnd : noDeps = ∅ := Finset.card_eq_zero.1 (by omega)
    have hrem : remaining = [] := List.length_eq_zero.1 (by omega)
    subst hnd; subst hrem
    rw [topoLoop_zero]
    refine ⟨inv.tnd, ?_, inv.ord⟩
    intro t
    have := inv.cover t
    simpa using this.symm
  | succ fuel ih =>
    intro tests remaining noDeps hfuel inv
    by_cases h : noDeps.Nonempty
    · -- pop one instance and step
      rw [topoLoop_succ_pos ch fuel tests remaining noDeps h]
      obtain ⟨inv', hmeas⟩ := topoStep_inv orig keys tests remaining _ _ _
        noDeps _ (ch.choose noDeps h) rfl rfl rfl rfl
        (ch.choose_mem noDeps h) inv
      exact ih _ _ _ (by omega) inv'
    · -- the ready set is empty: with an acyclic closed graph nothing remains
      rw [topoLoop_succ_neg ch fuel tests remaining noDeps h]
      have hnd : noDeps = ∅ := Finset.not_nonempty_iff_eq_empty.1 h
      have hrem : remaining = [] := by
        by_contra hne
        have hRne : ((remaining.map Prod.fst).toFinset).Nonempty := by
          cases remaining with
          | nil => exact absurd rfl hne
          | cons p rest => exact ⟨p.1, by simp⟩
        obtain ⟨t₀, ht₀, hmin⟩ :=
          Finset.exists_min_image ((remaining.map Prod.fst).toFinset) rk hRne
        obtain ⟨p, hp, hpt⟩ := List.mem_map.1 (List.mem_toFinset.1 ht₀)
        have hEq := inv.remEq p hp
        have hne2 : p.2 ≠ ∅ := inv.remNE p hp
        obtain ⟨d, hd⟩ := Finset.nonempty_iff_ne_empty.2 hne2
        rw [hEq] at hd
        have hdo : d ∈ orig p.1 := (Finset.mem_sdiff.1 hd).1
        have hdT : d ∉ tests.toFinset := (Finset.mem_sdiff.1 hd).2
        have ht₀keys : t₀ ∈ keys :=
          (inv.cover t₀).2 (Or.inr (Or.inr (hpt ▸ List.mem_map_of_mem Prod.fst hp)))
        have hdkeys : d ∈ keys := hclosed t₀ ht₀keys (hpt ▸ hdo)
        have hdR : d ∈ remaining.map Prod.fst := by
          rcases (inv.cover d).1 hdkeys with hm | hm | hm
          · exact absurd (List.mem_toFinset.2 hm) hdT
          · rw [hnd] at hm; exact absurd hm (Finset.not_mem_empty d)
          · exact hm
        have hlt := hrk t₀ ht₀keys d (hpt ▸ hdo)
        have hge := hmin d (List.mem_toFinset.2 hdR)
        omega
      subst hrem
      refine ⟨inv.tnd, ?_, inv.ord⟩
      intro t
      have := inv.cover t
      rw [hnd] at this
      simpa using this.symm

/-- `_TopologicalSort` on a whole graph: with duplicate-free keys, closed
dependency sets and a topological ranking, the output is duplicate-free,
enumerates exactly the keys, and lists every instance after its
dependencies — for every pop order. -/
theorem topologicalSort_spec (ch : PopChoice) (g : DepGraph)
    (hnd : (g.map Prod.fst).Nodup)
    (hclosed : ∀ p ∈ g, ∀ d ∈ p.2, d ∈ keysOf g)
    (rk : Nat → Nat) (hrk : ∀ p ∈ g, ∀ d ∈ p.2, rk d < rk p.1) :
    (TopologicalSort ch g).Nodup ∧
    (∀ t, t ∈ TopologicalSort ch g ↔ t ∈ keysOf g) ∧
    (∀ i (hi : i < (TopologicalSort ch g).length),
      origOf g (TopologicalSort ch g)[i] ⊆
        ((TopologicalSort ch g).take i).toFinset) := by
  have hclosed' : ∀ t ∈ keysOf g, origOf g t ⊆ keysOf g := by
    intro t ht d hd
    unfold origOf at hd
    cases halo : alookup g t with
    | none => rw [halo] at hd; simp at hd
    | some s =>
      rw [halo] at hd
      simp at hd
      exact hclosed (t, s) (alookup_mem halo) d hd
  have hrk' : ∀ t ∈ keysOf g, ∀ d ∈ origOf g t, rk d < rk t := by
    intro t ht d hd
    unfold origOf at hd
    cases halo : alookup g t with
    | none => rw [halo] at hd; simp at hd
    | some s =>
      rw [halo] at hd
      simp at hd
      exact hrk (t, s) (alookup_mem halo) d hd
  have hinv : TopoInv (origOf g) (keysOf g) []
      (g.filter fun p => ¬p.2 = ∅)
      (((g.filter fun p => p.2 = ∅).map Prod.fst).toFinset) := by
    refine ⟨?_, ?_, ?_, ?_, ?_, ?_, ?_, ?_, ?_, ?_⟩
    · intro p hp
      have hpg : p ∈ g := List.mem_of_mem_filter hp
      have halo : alookup g p.1 = some p.2 := alookup_of_mem hnd hpg
      simp [origOf, halo]
    · intro p hp
      have := (List.mem_filter.1 hp).2
      simpa using this
    · intro t ht
      obtain ⟨q, hq, hqt⟩ := List.mem_map.1 (List.mem_toFinset.1 ht)
      have hqg : q ∈ g := List.mem_of_mem_filter hq
      have hqe : q.2 = ∅ := by simpa using (List.mem_filter.1 hq).2
      have halo : alookup g q.1 = some q.2 := alookup_of_mem hnd hqg
      rw [← hqt]
      intro d hd
      rw [origOf, halo] at hd
      simp [hqe] at hd
    · intro i hi
      simp at hi
    · exact List.nodup_nil
    · have hsub : List.Sublist ((g.filter fun p => ¬p.2 = ∅).map Prod.fst)
          (g.map Prod.fst) := (List.filter_sublist _).map _
      exact hnd.sublist hsub
    · intro t
      constructor
      · intro ht
        obtain ⟨q, hq, hqt⟩ := List.mem_map.1 (List.mem_toFinset.1 ht)
        by_cases hqe : q.2 = ∅
        · refine Or.inr (Or.inl (List.mem_toFinset.2 ?_))
          rw [← hqt]
          exact List.mem_map_of_mem Prod.fst
            (List.mem_filter.2 ⟨hq, by simpa using hqe⟩)
        · refine Or.inr (Or.inr ?_)
          rw [← hqt]
          exact List.mem_map_of_mem Prod.fst
            (List.mem_filter.2 ⟨hq, by simpa using hqe⟩)
      · rintro (ht | ht | ht)
        · cases ht
        · obtain ⟨q, hq, hqt⟩ := List.mem_map.1 (List.mem_toFinset.1 ht)
          rw [← hqt]
          exact List.mem_toFinset.2
            (List.mem_map_of_mem Prod.fst (List.mem_of_mem_filter hq))
        · obtain ⟨q, hq, hqt⟩ := List.mem_map.1 ht
          rw [← hqt]
          exact List.mem_toFinset.2
            (List.mem_map_of_mem Prod.fst (List.mem_of_mem_filter hq))
    · intro t ht
      cases ht
    · intro t ht
      cases ht
    · intro t ht hmem
      obtain ⟨q₁, hq₁, hqt₁⟩ := List.mem_map.1 (List.mem_toFinset.1 ht)
      obtain ⟨q₂, hq₂, hqt₂⟩ := List.mem_map.1 hmem
      have hg₁ : q₁ ∈ g := List.mem_of_mem_filter hq₁
      have hg₂ : q₂ ∈ g := List.mem_of_mem_filter hq₂
      have he : q₁ = q₂ := fst_nodup_inj hnd hg₁ hg₂ (by rw [hqt₁, hqt₂])
      have h₁ : q₁.2 = ∅ := by simpa using (List.mem_filter.1 hq₁).2
      have h₂ : ¬q₂.2 = ∅ := by simpa using (List.mem_filter.1 hq₂).2
      exact h₂ (he ▸ h₁)
  have hmain := topoLoop_inv ch (origOf g) (keysOf g) hclosed' rk hrk'
    ((((g.filter fun p => p.2 = ∅).map Prod.fst).toFinset).card +
      (g.filter fun p => ¬p.2 = ∅).length)
    [] (g.filter fun p => ¬p.2 = ∅)
    (((g.filter fun p => p.2 = ∅).map Prod.fst).toFinset)
    (Nat.le_refl _) hinv
  simpa only [TopologicalSort] using hmain

/-- C1: for every resolved acyclic dependency graph — with duplicate-free
keys, every dependency itself a key, and a topological ranking
witnessing acyclicity — and for every `set.pop()` order, every instance of
the graph appears in the sequence returned by `_TopologicalSort`, and each
of its dependencies appears at a strictly earlier position. -/
theorem scheduler_places_deps_first (ch : PopChoice) (g : DepGraph)
    (hnd : (g.map Prod.fst).Nodup)
    (hclosed : ∀ p ∈ g, ∀ d ∈ p.2, d ∈ keysOf g)
    (hacyc : ∃ rk : Nat → Nat, ∀ p ∈ g, ∀ d ∈ p.2, rk d < rk p.1) :
    ∀ p ∈ g, ∃ i, ∃ hi : i < (TopologicalSort ch g).length,
      (TopologicalSort ch g)[i] = p.1 ∧
      ∀ d ∈ p.2, ∃ j, ∃ hj : j < (TopologicalSort ch g).length,
        j < i ∧ (TopologicalSort ch g)[j] = d := by
  obtain ⟨rk, hrk⟩ := hacyc
  obtain ⟨hnodup, hmem, hord⟩ := topologicalSort_spec ch g hnd hclosed rk hrk
  intro p hp
  have hpk : p.1 ∈ keysOf g :=
    List.mem_toFinset.2 (List.mem_map_of_mem Prod.fst hp)
  have hpo : p.1 ∈ TopologicalSort ch g := (hmem p.1).2 hpk
  obtain ⟨i, hi, hgi⟩ := List.mem_iff_getElem.1 hpo
  refine ⟨i, hi, hgi, ?_⟩
  intro d hd
  have horig : origOf g p.1 = p.2 := by
    simp [origOf, alookup_of_mem hnd hp]
  have hsub := hord i hi
  rw [hgi, horig] at hsub
  have hdt : d ∈ (TopologicalSort ch g).take i := List.mem_toFinset.1 (hsub hd)
  obtain ⟨j, hj, hgj⟩ := List.mem_iff_getElem.1 hdt
  have hjlen : j < (TopologicalSort ch g).length := by
    have := hj
    simp [List.length_take] at this
    omega
  have hji : j < i := by
    have := hj
    simp [List.length_take] at this
    omega
  refine ⟨j, hjlen, hji, ?_⟩
  rw [List.getElem_take] at hgj
  exact hgj

/-- C1 witness: the two-instance chain, popping minima; instance 1 appears
with its dependency 0 strictly before it. -/
theorem scheduler_places_deps_first_witness :
    ∃ i, ∃ hi : i < (TopologicalSort chooseMin [(0, ∅), (1, {0})]).length,
      (TopologicalSort chooseMin [(0, ∅), (1, {0})])[i] = 1 ∧
      ∀ d ∈ ({0} : Finset Nat), ∃ j,
        ∃ hj : j < (TopologicalSort chooseMin [(0, ∅), (1, {0})]).length,
          j < i ∧ (TopologicalSort chooseMin [(0, ∅), (1, {0})])[j] = d :=
  scheduler_places_deps_first chooseMin [(0, ∅), (1, {0})] (by decide)
    (by decide) ⟨id, by decide⟩ (1, {0}) (by decide)

/-- C3 counterexample: two invocations of `_TopologicalSort` over the same
graph — the same instances with the same (empty) dependency sets — return
different orders when Python's arbitrary `set.pop()` happens to serve the
ready set in different orders. -/
theorem scheduler_not_deterministic_cex :
    TopologicalSort chooseMin [(0, ∅), (1, ∅)] = [0, 1] ∧
    TopologicalSort chooseMax [(0, ∅), (1, ∅)] = [1, 0] ∧
    TopologicalSort chooseMin [(0, ∅), (1, ∅)] ≠
      TopologicalSort chooseMax [(0, ∅), (1, ∅)] :=
  ⟨by decide, by decide, by decide⟩

/-- C3 as amended: the sort is deterministic only relative to the pop
order — two invocations over the same graph whose `set.pop()` choices agree
pointwise return the same sequence.  The graph alone does not determine the
output (see the counterexample). -/
theorem scheduler_deterministic_given_pop_order (ch₁ ch₂ : PopChoice)
    (hagree : ∀ s h, ch₁.choose s h = ch₂.choose s h) (g : DepGraph) :
    TopologicalSort ch₁ g = TopologicalSort ch₂ g := by
  suffices hloop : ∀ fuel tests remaining noDeps,
      topoLoop ch₁ fuel tests remaining noDeps =
        topoLoop ch₂ fuel tests remaining noDeps by
    simp only [TopologicalSort]
    exact hloop _ _ _ _
  intro fuel
  induction fuel with
  | zero =>
    intro tests remaining noDeps
    rfl
  | succ fuel ih =>
    intro tests remaining noDeps
    by_cases h : noDeps.Nonempty
    · rw [topoLoop_succ_pos ch₁ fuel tests remaining noDeps h,
        topoLoop_succ_pos ch₂ fuel tests remaining noDeps h,
        hagree noDeps h, ih]
    · rw [topoLoop_succ_neg ch₁ fuel tests remaining noDeps h,
        topoLoop_succ_neg ch₂ fuel tests remaining noDeps h]

/-- C3 amended witness: a pop choice agrees with itself, so two runs with
it coincide on a concrete graph. -/
theorem scheduler_deterministic_given_pop_order_witness :
    TopologicalSort chooseMin [(0, ∅), (1, ∅)] =
      TopologicalSort chooseMin [(0, ∅), (1, ∅)] :=
  scheduler_deterministic_given_pop_order chooseMin chooseMin
    (fun _ _ => rfl) [(0, ∅), (1, ∅)]

/-- C5 counterexample: on the two-instance cycle the ready set starts
empty while both instances still carry nonzero dependency sets, and the
sort returns normally with the empty output — the instances are silently
omitted and no failure of any kind is raised (the function is total). -/
theorem scheduler_silent_drop_cex :
    TopologicalSort chooseMin [(0, {1}), (1, {0})] = [] ∧
    (0, ({1} : Finset Nat)) ∈ ([(0, {1}), (1, {0})] : DepGraph) ∧
    (0 : Nat) ∉ TopologicalSort chooseMin [(0, {1}), (1, {0})] :=
  ⟨by decide, by decide, by decide⟩

/-- C5 as amended: when the ready queue empties while instances with
nonzero dependency sets remain, `_TopologicalSort` does not fail loudly: it
returns the partial output, silently omitting those instances — on the
two-instance cycle the returned order is empty for every pop order. -/
theorem scheduler_returns_partial_on_cycle (ch : PopChoice) :
    TopologicalSort ch [(0, {1}), (1, {0})] = [] := by
  simp [TopologicalSort, topoLoop]

/-- C5 amended witness at a concrete pop order. -/
theorem scheduler_returns_partial_on_cycle_witness :
    TopologicalSort chooseMin [(0, {1}), (1, {0})] = [] :=
  scheduler_returns_partial_on_cycle chooseMin

/-! ## C8: the property store -/

/-- C8: setting a property twice logs the multiple-set anomaly and retains
the later value; a name never set is read as the distinguishable not-found
result `none` (the raised `AttributeError`), never as a default value —
the empty store reads `none` everywhere and setting `p` leaves every other
name's read unchanged. -/
theorem deviceProperties_overwrite_and_notfound {α : Type}
    (d : List (Nat × α)) (p q : Nat) (v₁ v₂ : α) (hqp : q ≠ p) :
    (setProp (setProp d p v₁).2 p v₂).1 = true ∧
    getProp (setProp (setProp d p v₁).2 p v₂).2 p = some v₂ ∧
    getProp ([] : List (Nat × α)) q = none ∧
    getProp (setProp d p v₁).2 q = getProp d q := by
  refine ⟨?_, ?_, rfl, ?_⟩
  · simp [setProp, alookup_aset_self]
  · simp [setProp, getProp, alookup_aset_self]
  · simp [setProp, getProp, alookup_aset_ne _ _ _ _ hqp]

/-- C8 witness on a concrete store. -/
theorem deviceProperties_overwrite_and_notfound_witness :
    (setProp (setProp ([] : List (Nat × Nat)) 0 5).2 0 7).1 = true ∧
    getProp (setProp (setProp ([] : List (Nat × Nat)) 0 5).2 0 7).2 0 =
      some 7 ∧
    getProp ([] : List (Nat × Nat)) 1 = none ∧
    getProp (setProp ([] : List (Nat × Nat)) 0 5).2 1 =
      getProp ([] : List (Nat × Nat)) 1 :=
  deviceProperties_overwrite_and_notfound [] 0 1 5 7 (by decide)

/-! ## C10: registration is not atomic on failure -/

/-- Looking a key up in a constant-value key list finds that value. -/
theorem alookup_map_const {d : Nat} :
    ∀ {pre : List Nat} {q : Nat}, q ∈ pre →
      alookup (pre.map fun x => (x, d)) q = some d := by
  intro pre
  induction pre with
  | nil =>
    intro q h
    cases h
  | cons a t ih =>
    intro q hq
    by_cases hqa : q = a
    · simp [alookup, hqa]
    · rcases List.mem_cons.1 hq with h | h
      · exact absurd h hqa
      · simp [alookup, hqa, ih h]

/-- The `for property in test_class.PROVIDES` loop stops at the first
already-claimed property, keeping the claims made before it. -/
theorem claimProvides_partial (d : Nat) :
    ∀ (pre : List Nat) (pmap : List (Nat × Nat)) (p : Nat) (rest : List Nat),
      (∀ q ∈ pre, alookup pmap q = none) → pre.Nodup →
      (alookup pmap p).isSome = true →
      claimProvides d (pre ++ p :: rest) pmap =
        (some .duplicateProperty, pmap ++ pre.map fun q => (q, d)) := by
  intro pre
  induction pre with
  | nil =>
    intro pmap p rest hun hnd hp
    simp [claimProvides, hp]
  | cons a t ih =>
    intro pmap p rest hun hnd hp
    have ha : alookup pmap a = none := hun a (List.mem_cons_self a t)
    have hat : a ∉ t := (List.nodup_cons.1 hnd).1
    have hun' : ∀ q ∈ t, alookup (pmap ++ [(a, d)]) q = none := by
      intro q hq
      rw [alookup_append, hun q (List.mem_cons_of_mem a hq)]
      have hqa : q ≠ a := fun he => hat (he ▸ hq)
      simp [alookup, hqa]
    have hp' : (alookup (pmap ++ [(a, d)]) p).isSome = true := by
      rw [alookup_append]
      cases halo : alookup pmap p with
      | none => rw [halo] at hp; simp at hp
      | some v => simp
    have hrec := ih (pmap ++ [(a, d)]) p rest hun' (List.nodup_cons.1 hnd).2 hp'
    have hstep : claimProvides d ((a :: t) ++ p :: rest) pmap =
        claimProvides d (t ++ p :: rest) (pmap ++ [(a, d)]) := by
      simp [claimProvides, ha]
    rw [hstep, hrec, List.append_assoc]
    simp

/-- C10: registration is not atomic on failure.  When a descriptor's
`PROVIDES` is `pre ++ p :: rest` with the properties of `pre` fresh and
pairwise distinct and `p` already claimed, `RegisterTest` raises
`DuplicatePropertyException`, the descriptor is never appended to
`self._all_tests`, yet every property of `pre` remains claimed by that
descriptor in `self._property_map`. -/
theorem registerTest_partial_on_duplicate (st : RunnerState)
    (tc : TestDescriptor) (pre : List Nat) (p : Nat) (rest : List Nat)
    (hsplit : tc.PROVIDES = pre ++ p :: rest)
    (hfresh : ∀ q ∈ pre, alookup st.property_map q = none)
    (hnd : pre.Nodup)
    (hdup : (alookup st.property_map p).isSome = true) :
    (RegisterTest st tc).1 = some .duplicateProperty ∧
    (RegisterTest st tc).2.all_tests = st.all_tests ∧
    ∀ q ∈ pre, alookup (RegisterTest st tc).2.property_map q = some tc.id := by
  have h := claimProvides_partial tc.id pre st.property_map p rest hfresh hnd hdup
  have hreg : RegisterTest st tc =
      (some .duplicateProperty,
        { st with
            property_map :=
              st.property_map ++ pre.map fun q => (q, tc.id) }) := by
    simp only [RegisterTest, hsplit, h]
  rw [hreg]
  refine ⟨rfl, rfl, ?_⟩
  intro q hq
  rw [alookup_append, hfresh q hq]
  exact alookup_map_const hq

/-- C10 witness: property 5 is claimed by class 9; registering class 3 with
`PROVIDES = [1, 2, 5, 4]` fails, class 3 is not registered, but properties
1 and 2 stay claimed by class 3. -/
theorem registerTest_partial_on_duplicate_witness :
    (RegisterTest ⟨[(5, 9)], [9]⟩ ⟨3, [1, 2, 5, 4], [], []⟩).1 =
      some .duplicateProperty ∧
    (RegisterTest ⟨[(5, 9)], [9]⟩ ⟨3, [1, 2, 5, 4], [], []⟩).2.all_tests =
      [9] ∧
    ∀ q ∈ [1, 2], alookup
      (RegisterTest ⟨[(5, 9)], [9]⟩ ⟨3, [1, 2, 5, 4], [], []⟩).2.property_map
      q = some 3 :=
  registerTest_partial_on_duplicate ⟨[(5, 9)], [9]⟩ ⟨3, [1, 2, 5, 4], [], []⟩
    [1, 2] 5 [4] rfl (by decide) (by decide) (by decide)

/-! ## C7: a requires-cycle aborts before any test runs -/

/-- C7: the canonical requires-cycle — class `A` (id `a`) requires property
`p`, class `B` (id `b`) provides `p` and statically depends on `A`.
Registration of `[A, B]` succeeds, and `RunTests` over the full selection
returns `CircularDepdendancyException`: the exception propagates out of
`_InstantiateTests` (line 227), so the scheduling and the driving loop are
never reached and no test body executes, whatever the pop order, loop limit
and device responses. -/
theorem requires_cycle_fails_before_run (a b p : Nat) (hab : a ≠ b)
    (ch : PopChoice) (limit : Nat) (streams : List (List Response)) :
    registerAll [⟨a, [], [p], []⟩, ⟨b, [p], [], [a]⟩] ⟨[], []⟩ =
      .ok ⟨[(p, b)], [a, b]⟩ ∧
    RunTests [⟨a, [], [p], []⟩, ⟨b, [p], [], [a]⟩] ⟨[(p, b)], [a, b]⟩
      none ch limit streams = .error .circularDependency := by
  have hba : b ≠ a := hab.symm
  constructor
  · simp [registerAll, RegisterTest, claimProvides, alookup]
  · simp [RunTests, instantiateTests, instantiateLoop, addTest, alookup,
      resolveDeps, producersOf, initResolveState, aset, List.find?, hab, hba]

/-- C7 witness at concrete ids. -/
theorem requires_cycle_fails_before_run_witness :
    registerAll [⟨5, [], [7], []⟩, ⟨6, [7], [], [5]⟩] ⟨[], []⟩ =
      .ok ⟨[(7, 6)], [5, 6]⟩ ∧
    RunTests [⟨5, [], [7], []⟩, ⟨6, [7], [], [5]⟩] ⟨[(7, 6)], [5, 6]⟩
      none chooseMin 25 [] = .error .circularDependency :=
  requires_cycle_fails_before_run 5 6 7 (by decide) chooseMin 25 []

/-! ## C9: diamond dependencies collapse to a single shared instance -/

/-- C9: the diamond — `D` provides `pd`; `A` and `B` both require `pd` and
provide `pa`, `pb`; `C` requires both.  Registration succeeds; resolution
materializes exactly four instances, numbered in instantiation order
`0 = D, 1 = A, 2 = B, 3 = C`: exactly one instance of `D` exists, the
recorded dependency sets of `A` and `B` are both `{0}` — the same shared
copy of `D` — and for every pop order the scheduled output contains the
id `0` exactly once. -/
theorem diamond_single_instance (d0 d1 d2 d3 pd pa pb : Nat)
    (h01 : d0 ≠ d1) (h02 : d0 ≠ d2) (h03 : d0 ≠ d3)
    (h12 : d1 ≠ d2) (h13 : d1 ≠ d3) (h23 : d2 ≠ d3)
    (hda : pd ≠ pa) (hdb : pd ≠ pb) (hab : pa ≠ pb) (ch : PopChoice) :
    registerAll
      [⟨d0, [pd], [], []⟩, ⟨d1, [pa], [pd], []⟩,
       ⟨d2, [pb], [pd], []⟩, ⟨d3, [], [pa, pb], []⟩] ⟨[], []⟩ =
      .ok ⟨[(pd, d0), (pa, d1), (pb, d2)], [d0, d1, d2, d3]⟩ ∧
    Except.map (fun st => (st.instOf, st.depsMap))
      (instantiateTests
        [⟨d0, [pd], [], []⟩, ⟨d1, [pa], [pd], []⟩,
         ⟨d2, [pb], [pd], []⟩, ⟨d3, [], [pa, pb], []⟩]
        [(pd, d0), (pa, d1), (pb, d2)] [d0, d1, d2, d3]) =
      .ok ([(0, d0), (1, d1), (2, d2), (3, d3)],
           [(0, ∅), (1, {0}), (2, {0}), (3, ({1, 2} : Finset Nat))]) ∧
    (([(0, d0), (1, d1), (2, d2), (3, d3)] :
        List (Nat × Nat)).filter fun q => q.2 = d0).length = 1 ∧
    (TopologicalSort ch
      [(0, ∅), (1, {0}), (2, {0}), (3, ({1, 2} : Finset Nat))]).count 0 = 1 := by
  have h10 := h01.symm
  have h20 := h02.symm
  have h30 := h03.symm
  have h21 := h12.symm
  have h31 := h13.symm
  have h32 := h23.symm
  have had := hda.symm
  have hbd := hdb.symm
  have hba := hab.symm
  refine ⟨?_, ?_, ?_, ?_⟩
  · simp [registerAll, RegisterTest, claimProvides, alookup, had, hbd, hba]
  · simp [instantiateTests, instantiateLoop, addTest, alookup, resolveDeps,
      producersOf, initResolveState, aset, List.find?, Except.map,
      h01, h02, h03, h12, h13, h23, hda, hdb, hab,
      h10, h20, h30, h21, h31, h32, had, hbd, hba]
  · simp [List.filter, h10, h20, h30]
  · obtain ⟨hnodup, hmem, _⟩ := topologicalSort_spec ch
      [(0, ∅), (1, {0}), (2, {0}), (3, ({1, 2} : Finset Nat))]
      (by decide) (by decide) id (by decide)
    have h0 : (0 : Nat) ∈ TopologicalSort ch
        [(0, ∅), (1, {0}), (2, {0}), (3, ({1, 2} : Finset Nat))] :=
      (hmem 0).2 (by decide)
    exact List.count_eq_one_of_mem hnodup h0

/-- C9 witness at concrete ids and the min-popping order. -/
theorem diamond_single_instance_witness :
    registerAll
      [⟨0, [10], [], []⟩, ⟨1, [11], [10], []⟩,
       ⟨2, [12], [10], []⟩, ⟨3, [], [11, 12], []⟩] ⟨[], []⟩ =
      .ok ⟨[(10, 0), (11, 1), (12, 2)], [0, 1, 2, 3]⟩ ∧
    Except.map (fun st => (st.instOf, st.depsMap))
      (instantiateTests
        [⟨0, [10], [], []⟩, ⟨1, [11], [10], []⟩,
         ⟨2, [12], [10], []⟩, ⟨3, [], [11, 12], []⟩]
        [(10, 0), (11, 1), (12, 2)] [0, 1, 2, 3]) =
      .ok ([(0, 0), (1, 1), (2, 2), (3, 3)],
           [(0, ∅), (1, {0}), (2, {0}), (3, ({1, 2} : Finset Nat))]) ∧
    (([(0, 0), (1, 1), (2, 2), (3, 3)] :
        List (Nat × Nat)).filter fun q => q.2 = 0).length = 1 ∧
    (TopologicalSort chooseMin
      [(0, ∅), (1, {0}), (2, {0}), (3, ({1, 2} : Finset Nat))]).count 0 = 1 :=
  diamond_single_instance 0 1 2 3 10 11 12 (by decide) (by decide) (by decide)
    (by decide) (by decide) (by decide) (by decide) (by decide) (by decide)
    chooseMin

/-! ## C2: the loop limit is not fatal to the run -/

/-- C2 counterexample: two dependency-free tests; the first drain cycle is
fed an endless "more remain" stream and trips the loop limit (25 fetches,
`loopLimit` outcome, `wrapper.Stop()` called).  `RunTests` nevertheless
executes the first test, then starts a second drain cycle — which issues a
fresh fetch with a reset counter — and executes the second test as well:
the run is not terminated. -/
theorem loop_limit_not_fatal_cex :
    RunTests [⟨0, [], [], []⟩, ⟨1, [], [], []⟩] ⟨[], [0, 1]⟩ none chooseMin 25
        [List.replicate 25 moreRemainResp, [emptyStatusResp]] =
      .ok ⟨[0, 1], [0, 1], [],
        [⟨25, 0, .loopLimit, false⟩, ⟨1, 0, .drained, false⟩], []⟩ ∧
    (FetchAllMessages 25 (List.replicate 25 moreRemainResp)).outcome =
      .loopLimit := by
  constructor
  · rfl
  · decide

/-- C2 as amended: reaching the loop limit is fatal only to the drain cycle
in which it happens (that cycle stops the event loop and ends in the
`loopLimit` state); the driving `for` loop of `RunTests` checks nothing and
continues — every scheduled instance whose requirements are present is
still drained (with a reset counter) and executed, whatever each cycle's
outcome. -/
theorem run_continues_after_loop_limit (reg : List TestDescriptor)
    (instOf : List (Nat × Nat)) (limit : Nat) :
    ∀ (insts : List Nat) (streams : List (List Response))
      (dev : List (Nat × Nat)) (acc : RunOutcome),
      (∀ inst ∈ insts, (match descrOf reg instOf inst with
        | some tc => tc.REQUIRES
        | none => []) = []) →
      (runLoop reg instOf limit insts streams dev acc).executed =
        acc.executed ++ insts ∧
      (runLoop reg instOf limit insts streams dev acc).drains.length =
        acc.drains.length + insts.length := by
  intro insts
  induction insts with
  | nil =>
    intro streams dev acc _
    exact ⟨by simp [runLoop], by simp [runLoop]⟩
  | cons inst rest ih =>
    intro streams dev acc hreq
    have hhd := hreq inst (List.mem_cons_self inst rest)
    have htl : ∀ i ∈ rest, (match descrOf reg instOf i with
        | some tc => tc.REQUIRES
        | none => []) = [] :=
      fun i hi => hreq i (List.mem_cons_of_mem inst hi)
    rw [runLoop]
    rw [hhd]
    simp only [List.all_nil, if_pos]
    obtain ⟨h₁, h₂⟩ := ih streams.tail
      (match descrOf reg instOf inst with
        | some tc => runBody tc inst dev
        | none => dev)
      { acc with
          drains := acc.drains ++
            [FetchAllMessages limit (streams.headD [])]
          executed := acc.executed ++ [inst] } htl
    refine ⟨?_, ?_⟩
    · rw [h₁]
      simp
    · rw [h₂]
      simp
      omega

/-- C2 amended witness at the counterexample's inputs: both instances
execute and both get their own drain cycle. -/
theorem run_continues_after_loop_limit_witness :
    (runLoop [⟨0, [], [], []⟩, ⟨1, [], [], []⟩] [(0, 0), (1, 1)] 25 [0, 1]
        [List.replicate 25 moreRemainResp, [emptyStatusResp]] []
        ⟨[0, 1], [], [], [], []⟩).executed = [] ++ [0, 1] ∧
    (runLoop [⟨0, [], [], []⟩, ⟨1, [], [], []⟩] [(0, 0), (1, 1)] 25 [0, 1]
        [List.replicate 25 moreRemainResp, [emptyStatusResp]] []
        ⟨[0, 1], [], [], [], []⟩).drains.length = 0 + 2 :=
  run_continues_after_loop_limit [⟨0, [], [], []⟩, ⟨1, [], [], []⟩]
    [(0, 0), (1, 1)] 25 [0, 1]
    [List.replicate 25 moreRemainResp, [emptyStatusResp]] []
    ⟨[0, 1], [], [], [], []⟩ (by decide)

end TestRunnerModel
